import Mathlib

/-!
# Verification of the vega-lite mark-default resolver and legend compiler

A shallow embedding of `src/compile/config.ts` (`initMarkConfig`) and of the
legend-compilation module (`parseLegendComponent`, `parseLegend`,
`getLegendDefWithScale`, `useColorLegendScale`, `formatMixins`, `title`, and
the `properties.symbols` / `properties.labels` generation rules).

JavaScript objects are embedded as association lists `Obj := List (String × Value)`
in insertion order; an absent key and a key whose value is `undefined` are both
represented by the key being absent (`getV` returning `none`).  Property
assignment (`setV`) updates the first occurrence in place or appends, matching
JS object-key semantics.  External collaborators that are not part of the two
source files (the utility helpers, the encoding/fielddef helpers, the common
mixins, and the scale-name constants) are modelled from the specification and
carry a doc comment saying so.
-/

set_option autoImplicit false

namespace VegaLite

/-- A JavaScript value, as far as the compiled output needs: strings, numbers
(rationals, since only `0`, `0.7` and format strings occur), booleans, and
nested objects.  `undefined` is represented by key absence, not by a value. -/
inductive Value where
  | str : String → Value
  | num : ℚ → Value
  | bool : Bool → Value
  | obj : List (String × Value) → Value

/-- A JavaScript object: keys with values, in insertion order. -/
abbrev Obj := List (String × Value)

/-- Property read: the first entry with the given key, `none` for absent. -/
def getV : Obj → String → Option Value
  | [], _ => none
  | (k1, v) :: t, k => if k1 = k then some v else getV t k

/-- Property assignment: update the first occurrence in place (keeping its
position, as JS does), or append the key at the end when absent. -/
def setV : Obj → String → Value → Obj
  | [], k, v => [(k, v)]
  | (k1, v1) :: t, k, v => if k1 = k then (k, v) :: t else (k1, v1) :: setV t k v

/-- Modelled from the spec: the external utility `extend(a, b)` (object merge),
"rule-derived values first, explicit base values applied last so they win on
conflict" — every key of `b` is assigned onto `a` in order, so `b` wins. -/
def extendO (a b : Obj) : Obj :=
  b.foldl (fun acc p => setV acc p.1 p.2) a

/-- JavaScript truthiness of a value (objects are always truthy). -/
def truthyV : Value → Bool
  | .str s => !s.isEmpty
  | .num q => q ≠ 0
  | .bool b => b
  | .obj _ => true

/-- Truthiness of a possibly-absent value (`undefined` is falsy). -/
def truthyO : Option Value → Bool
  | some v => truthyV v
  | none => false

/-! ## Basic object lemmas -/

theorem getV_setV_same (o : Obj) (k : String) (v : Value) :
    getV (setV o k v) k = some v := by
  induction o with
  | nil => simp [setV, getV]
  | cons p t ih =>
    obtain ⟨k1, v1⟩ := p
    by_cases h : k1 = k
    · simp [setV, getV, h]
    · simp [setV, getV, h, ih]

theorem getV_setV_ne (o : Obj) (k k2 : String) (v : Value) (h : k2 ≠ k) :
    getV (setV o k v) k2 = getV o k2 := by
  have hks : ¬ (k = k2) := Ne.symm h
  induction o with
  | nil => simp [setV, getV, hks]
  | cons p t ih =>
    obtain ⟨k1, v1⟩ := p
    by_cases h1 : k1 = k
    · subst h1
      simp [setV, getV, hks]
    · by_cases h2 : k1 = k2
      · simp [setV, getV, h1, h2, h]
      · simp [setV, getV, h1, h2, ih]

theorem getV_extendO_absent (a b : Obj) (k : String) (h : getV b k = none) :
    getV (extendO a b) k = getV a k := by
  induction b generalizing a with
  | nil => simp [extendO]
  | cons p t ih =>
    obtain ⟨k1, v1⟩ := p
    by_cases h1 : k1 = k
    · simp [getV, h1] at h
    · simp [getV, h1] at h
      have step : extendO a ((k1, v1) :: t) = extendO (setV a k1 v1) t := rfl
      rw [step, ih (setV a k1 v1) h, getV_setV_ne a k1 k v1 (fun hh => h1 hh.symm)]

theorem getV_extendO_present (a b : Obj) (k : String) (v : Value)
    (hnd : (b.map Prod.fst).Nodup) (h : getV b k = some v) :
    getV (extendO a b) k = some v := by
  induction b generalizing a with
  | nil => simp [getV] at h
  | cons p t ih =>
    obtain ⟨k1, v1⟩ := p
    have step : extendO a ((k1, v1) :: t) = extendO (setV a k1 v1) t := rfl
    simp only [List.map_cons, List.nodup_cons] at hnd
    by_cases h1 : k1 = k
    · subst h1
      simp [getV] at h
      subst h
      have habs : getV t k1 = none := by
        by_contra hc
        cases hg : getV t k1 with
        | none => exact hc hg
        | some w =>
          have : k1 ∈ t.map Prod.fst := by
            clear hc hnd ih step
            induction t with
            | nil => simp [getV] at hg
            | cons q r ihr =>
              obtain ⟨kq, vq⟩ := q
              by_cases hq : kq = k1
              · simp [hq]
              · simp [getV, hq] at hg
                simp [ihr hg]
          exact hnd.1 this
      rw [step, getV_extendO_absent (setV a k1 v1) t k1 habs, getV_setV_same]
    · simp [getV, h1] at h
      rw [step, ih (setV a k1 v1) hnd.2 h]

theorem getV_mem_keys (o : Obj) (k : String) (v : Value) (h : getV o k = some v) :
    k ∈ o.map Prod.fst := by
  induction o with
  | nil => simp [getV] at h
  | cons p t ih =>
    obtain ⟨k1, v1⟩ := p
    by_cases h1 : k1 = k
    · simp [h1]
    · simp [getV, h1] at h
      simp [ih h]

theorem setV_ne_nil (o : Obj) (k : String) (v : Value) : setV o k v ≠ [] := by
  cases o with
  | nil => simp [setV]
  | cons p t =>
    obtain ⟨k1, v1⟩ := p
    by_cases h : k1 = k <;> simp [setV, h]

theorem extendO_ne_nil_left (a b : Obj) (ha : a ≠ []) : extendO a b ≠ [] := by
  induction b generalizing a with
  | nil => simpa [extendO]
  | cons p t ih =>
    obtain ⟨k1, v1⟩ := p
    have step : extendO a ((k1, v1) :: t) = extendO (setV a k1 v1) t := rfl
    rw [step]
    exact ih (setV a k1 v1) (setV_ne_nil a k1 v1)

/-! ## Enumerations: marks, channels, field types, scale names -/

/-- Mark types, from `src/mark.ts` constants used by the two modules. -/
inductive Mark where
  | point | line | area | bar | tick | text | circle | square | rule
  deriving DecidableEq, Repr

/-- The string name of a mark (the `mark` constant values are their names). -/
def markName : Mark → String
  | .point => "point"
  | .line => "line"
  | .area => "area"
  | .bar => "bar"
  | .tick => "tick"
  | .text => "text"
  | .circle => "circle"
  | .square => "square"
  | .rule => "rule"

/-- Encoding channels, from `src/channel.ts` ("x, y, color, size, shape,
detail, and others" per the data model). -/
inductive Channel where
  | x | y | row | column | color | size | shape | text | detail
  deriving DecidableEq, Repr

/-- All channels, for the aggregate scan over an encoding. -/
def allChannels : List Channel :=
  [.x, .y, .row, .column, .color, .size, .shape, .text, .detail]

/-- Field semantic types (nominal / ordinal / quantitative / temporal). -/
inductive FType where
  | nominal | ordinal | quantitative | temporal
  deriving DecidableEq, Repr

/-- A field-binding descriptor: field name, semantic type, bin flag,
time-granularity transform, aggregate, optional explicit title, and an
optional constant value.  Absent entries are `none` (JS `undefined`). -/
structure FieldDef where
  field : Option String := none
  type : Option FType := none
  bin : Bool := false
  timeUnit : Option String := none
  aggregate : Option String := none
  title : Option String := none
  value : Option Value := none

/-- An encoding: per channel, an optional field-binding descriptor. -/
def Encoding : Type := Channel → Option FieldDef

/-- Modelled from the spec: `has(encoding, channel)` from the (external)
encoding module — the channel is bound, i.e. its descriptor is present and
carries a field. -/
def hasE (enc : Encoding) (c : Channel) : Bool :=
  match enc c with
  | some fd => fd.field.isSome
  | none => false

/-- Modelled from the spec: `isAggregate(encoding)` from the (external)
encoding module — some bound channel carries an aggregate. -/
def isAggregate (enc : Encoding) : Bool :=
  allChannels.any (fun c =>
    hasE enc c &&
      (match enc c with
       | some fd => fd.aggregate.isSome
       | none => false))

/-- Modelled from the spec: `isMeasure(fieldDef)` from the (external)
fielddef module — a bound field whose semantic type is quantitative-like
("x bound to a quantitative field" is the spec's example of a measure). -/
def isMeasure (fd : Option FieldDef) : Bool :=
  match fd with
  | some f => f.field.isSome && f.type == some FType.quantitative
  | none => false

/-- The configuration object: only its `mark` sub-object is consumed here. -/
structure Config where
  mark : Obj := []

/-- The marks that receive the 0.7 opacity default in `initMarkConfig`. -/
def opacityMarks : List Mark := [.point, .tick, .circle, .square]

/-- The reduce inside `initMarkConfig(mark, encoding, config)` from
`src/compile/config.ts`: rule-derived defaults for `filled`, `opacity`,
`orient` and `align` accumulated into a fresh object.  The orientation rule's
intentional `undefined` assignment is represented by leaving the key absent. -/
def markRules (mark : Mark) (enc : Encoding) (config : Config) : Obj :=
  let cfg : Obj := []
  let cfg :=
    if (getV config.mark "filled").isNone then
      setV cfg "filled"
        (.bool (!(mark = Mark.point) && !(mark = Mark.line) && !(mark = Mark.rule)))
    else cfg
  let cfg :=
    if (getV config.mark "opacity").isNone && opacityMarks.contains mark then
      (if !(isAggregate enc) || hasE enc Channel.detail then
        setV cfg "opacity" (.num (7 / 10))
      else cfg)
    else cfg
  let cfg :=
    if isMeasure (enc Channel.x) && !(isMeasure (enc Channel.y)) then
      setV cfg "orient" (.str "horizontal")
    else cfg
  let cfg :=
    if (getV config.mark "align").isNone then
      setV cfg "align" (.str (if hasE enc Channel.x then "center" else "right"))
    else cfg
  cfg

/-- `initMarkConfig(mark, encoding, config)`: the rule-derived defaults with
`config.mark` merged on top, so its explicit values win on every key. -/
def initMarkConfig (mark : Mark) (enc : Encoding) (config : Config) : Obj :=
  extendO (markRules mark enc config) config.mark

/-! ## The legend module -/

/-- A name the model's scale-name allocator can be asked about: a channel's
own scale, or one of the two dedicated color-legend scales.  `COLOR_LEGEND`
and `COLOR_LEGEND_LABEL` are constants of the external scale module; modelled
from the spec ("a dedicated ordinal color-legend scale", "a binned-label
variant of that scale"). -/
inductive ScaleKey where
  | ch (c : Channel)
  | colorLegend
  | colorLegendLabel
  deriving DecidableEq, Repr

/-- Per-group explicit overrides of a structured legend request
(`legend.properties`): the four groups title / symbols / legend-frame /
labels, each an optional override object. -/
structure PropGroups where
  title : Option Obj := none
  symbols : Option Obj := none
  legend : Option Obj := none
  labels : Option Obj := none

/-- A structured legend request: explicit title, format, orient, values, and
per-group property overrides; every part optional. -/
structure LegendSpec where
  title : Option String := none
  format : Option String := none
  orient : Option Value := none
  values : Option Value := none
  properties : Option PropGroups := none

/-- A legend request as the model reports it: absent (`undefined`), a
boolean, or a structured override object. -/
inductive LegendReq where
  | undef
  | bool (b : Bool)
  | spec (s : LegendSpec)

/-- JS truthiness of a legend request (objects are always truthy). -/
def truthyLegend : LegendReq → Bool
  | .undef => false
  | .bool b => b
  | .spec _ => true

/-- `legend.format` for a structured request, `undefined` otherwise. -/
def legendFormat : LegendReq → Option String
  | .spec s => s.format
  | _ => none

/-- `legend.orient` for a structured request, `undefined` otherwise. -/
def legendOrient : LegendReq → Option Value
  | .spec s => s.orient
  | _ => none

/-- `legend.values` for a structured request, `undefined` otherwise. -/
def legendValues : LegendReq → Option Value
  | .spec s => s.values
  | _ => none

/-- `(typeof legend !== 'boolean' && legend.properties) || {}`. -/
def legendPropsOf : LegendReq → PropGroups
  | .spec s => s.properties.getD {}
  | _ => {}

/-- The resolved chart model, as the read-only accessor interface the legend
compiler consumes (spec section 6): mark, per-channel field defs and legend
requests, channel-bound test, scale-name allocation, resolved configuration,
and the two external format collaborators `formatMixins` and `timeFormat`
(modelled from the spec as oracle functions of the model, since the common
module is not part of the two source files). -/
structure UnitModel where
  markV : Mark
  fieldDefF : Channel → FieldDef
  legendF : Channel → LegendReq
  hasF : Channel → Bool
  scaleNameF : ScaleKey → String
  configV : Config
  utilFormatMixinsF : Channel → Option String → Obj
  timeFormatF : Channel → String

/-- Truthiness of `model.config().mark.filled`. -/
def markFilled (m : UnitModel) : Bool :=
  truthyO (getV m.configV.mark "filled")

/-- `useColorLegendScale(fieldDef)`: the color channel needs the special
ordinal/identity legend scale when the field is ordinal, binned, or carries a
time-granularity transform. -/
def useColorLegendScale (fd : FieldDef) : Bool :=
  fd.type == some FType.ordinal || fd.bin || fd.timeUnit.isSome

/-- `getLegendDefWithScale(model, channel)`: the initial legend definition
holding only the scale reference — for color under `fill`/`stroke` according
to the resolved filled flag, choosing the dedicated color-legend scale when
`useColorLegendScale` holds; for size and shape the channel's own scale.  The
source returns `null` for any other channel; that unreachable case is
embedded as the empty object. -/
def getLegendDefWithScale (m : UnitModel) (c : Channel) : Obj :=
  match c with
  | .color =>
    let fd := m.fieldDefF .color
    let scale := m.scaleNameF (if useColorLegendScale fd then .colorLegend else .ch .color)
    if markFilled m then [("fill", .str scale)] else [("stroke", .str scale)]
  | .size => [("size", .str (m.scaleNameF (.ch .size)))]
  | .shape => [("shape", .str (m.scaleNameF (.ch .shape)))]
  | _ => []

/-- Modelled from the spec: the external field-title resolver
`title(fieldDefinition) -> string`, "producing a human-readable label from a
field binding when no explicit title is supplied" — the binding's explicit
title, else its field name. -/
def fieldTitle (fd : FieldDef) : String :=
  fd.title.getD (fd.field.getD "")

/-- `title(legend, fieldDef)`: a truthy explicit title from a structured
legend request wins; otherwise the field's own title rule. -/
def title (legend : LegendReq) (fd : FieldDef) : String :=
  match legend with
  | .spec s =>
    match s.title with
    | some t => if t.isEmpty then fieldTitle fd else t
    | none => fieldTitle fd
  | _ => fieldTitle fd

/-- `formatMixins(legend, model, channel)`: a binned field gets no format
(range labels), otherwise the external format-mixin resolver is delegated to
with the request's explicit format. -/
def formatMixins (legend : LegendReq) (m : UnitModel) (c : Channel) : Obj :=
  if (m.fieldDefF c).bin then []
  else m.utilFormatMixinsF c (legendFormat legend)

/-- Modelled from the spec: `FILL_STROKE_CONFIG` from the external common
module — "a restricted subset of fill/stroke-related configuration
properties". -/
def fillStrokeConfig : List String :=
  ["fill", "fillOpacity", "stroke", "strokeWidth", "strokeDash",
   "strokeDashOffset", "strokeOpacity", "opacity"]

/-- Modelled from the spec: the external utility `without(a, b)` — the
members of `a` not in `b`. -/
def withoutL (a b : List String) : List String :=
  a.filter (fun s => !(b.contains s))

/-- Modelled from the spec: `applyMarkConfig(marksProperties, model, props)`
from the external common module — each listed mark-configuration property
that is present is copied into the target as a `{value: ...}` reference. -/
def applyMarkConfig (s : Obj) (m : UnitModel) (props : List String) : Obj :=
  props.foldl
    (fun acc p =>
      match getV m.configV.mark p with
      | some v => setV acc p (.obj [("value", v)])
      | none => acc)
    s

/-- A `{value: ...}` reference object; a missing source value leaves the
inner key out (JS would carry `value: undefined`, observationally absent). -/
def valueRef (v : Option Value) : Value :=
  match v with
  | some w => .obj [("value", w)]
  | none => .obj []

/-- The symbols rule's shape switch: square for bar/tick/text, the mark's own
name for circle/square, nothing for point/line/area (default circle) — and
nothing for rule, which has no case in the source switch. -/
def symbolsShapeStep (mark : Mark) : Obj :=
  match mark with
  | .bar | .tick | .text => [("shape", .obj [("value", .str "square")])]
  | .circle | .square => [("shape", .obj [("value", .str (markName mark))])]
  | _ => []

/-- The symbols rule's `applyMarkConfig` step: for the color channel's own
legend the active fill-or-stroke property is excluded so the legend scale is
not overridden; other channels copy the full fill/stroke subset. -/
def symbolsConfigStep (s : Obj) (m : UnitModel) (c : Channel) : Obj :=
  applyMarkConfig s m
    (if c = Channel.color then
      withoutL fillStrokeConfig [if markFilled m then "fill" else "stroke"]
    else fillStrokeConfig)

/-- The symbols rule forces `strokeWidth` to zero when the mark is filled. -/
def symbolsWidthStep (s : Obj) (m : UnitModel) : Obj :=
  if markFilled m then setV s "strokeWidth" (.obj [("value", .num 0)]) else s

/-- The color-channel-driven swatch value: the color-legend scale lookup for
a color legend over an ordinal/binned/time-unit field, else the constant
value set directly on the color channel's binding, else nothing. -/
def symbolsColorValue (fd : FieldDef) (m : UnitModel) (c : Channel) : Option Value :=
  if m.hasF Channel.color && (c = Channel.color) then
    (if useColorLegendScale fd then
      some (.obj [("scale", .str (m.scaleNameF (.ch .color))), ("field", .str "data")])
    else none)
  else
    match (m.fieldDefF Channel.color).value with
    | some v => if truthyV v then some (.obj [("value", v)]) else none
    | none => none

/-- Applying the swatch value under `fill` or `stroke`; with no value and a
non-color channel, `symbols[k] = symbols[k] || {value: config.mark.color}`
falls back to the generic mark color unless the key already holds a truthy
entry. -/
def symbolsColorStep (s : Obj) (fd : FieldDef) (m : UnitModel) (c : Channel) : Obj :=
  let k := if markFilled m then "fill" else "stroke"
  match symbolsColorValue fd m c with
  | some v => setV s k v
  | none =>
    if c = Channel.color then s
    else
      match getV s k with
      | some existing =>
        if truthyV existing then s else setV s k (valueRef (getV m.configV.mark "color"))
      | none => setV s k (valueRef (getV m.configV.mark "color"))

/-- The generated symbols object before the explicit override is layered on:
shape switch, mark-config subset, forced stroke width, swatch color. -/
def symbolsBase (fd : FieldDef) (m : UnitModel) (c : Channel) : Obj :=
  symbolsColorStep (symbolsWidthStep (symbolsConfigStep (symbolsShapeStep m.markV) m c) m) fd m c

namespace properties

/-- `properties.symbols(fieldDef, symbolsSpec, model, channel)`: the
generated symbols object with the explicit override extended on top (the
override wins per key), `undefined` when the result has no keys. -/
def symbols (fd : FieldDef) (symbolsSpec : Option Obj) (m : UnitModel) (c : Channel) : Option Obj :=
  let s := extendO (symbolsBase fd m c) (symbolsSpec.getD [])
  if s.isEmpty then none else some s

/-- `properties.labels(fieldDef, symbolsSpec, model, channel)`: for the color
channel only — ordinal fields bind label text to the color-legend scale,
binned fields to the binned-label scale, time-unit fields to a templated time
format; `undefined` otherwise.  Note the override argument is ignored. -/
def labels (fd : FieldDef) (_symbolsSpec : Option Obj) (m : UnitModel) (c : Channel) : Option Obj :=
  if c = Channel.color then
    if fd.type = some FType.ordinal then
      some [("text", .obj [("scale", .str (m.scaleNameF .colorLegend)), ("field", .str "data")])]
    else if fd.bin then
      some [("text", .obj [("scale", .str (m.scaleNameF .colorLegendLabel)), ("field", .str "data")])]
    else if fd.timeUnit.isSome then
      some [("text", .obj [("template",
        .str ("\x7b\x7b datum.data | time:\x27" ++ m.timeFormatF c ++ "\x27\x7d\x7d"))])]
    else none
  else none

end properties

/-- `def.properties = def.properties || {}; def.properties[group] = value`:
a nested write into the legend's properties object (a truthy non-object
`properties` value would make the JS assignment a silent no-op). -/
def setGroup (d : Obj) (g : String) (o : Obj) : Obj :=
  match getV d "properties" with
  | some (.obj po) => setV d "properties" (.obj (setV po g (.obj o)))
  | some v => if truthyV v then d else setV d "properties" (.obj (setV [] g (.obj o)))
  | none => setV d "properties" (.obj (setV [] g (.obj o)))

/-- One iteration of the property-group loop: the group value is written only
when it is defined and has at least one key. -/
def addGroup (d : Obj) (g : String) (v : Option Obj) : Obj :=
  match v with
  | some o => if o.isEmpty then d else setGroup d g o
  | none => d

/-- Read a property group back out of a compiled legend definition. -/
def getGroup (d : Obj) (g : String) : Option Obj :=
  match getV d "properties" with
  | some (.obj po) =>
    match getV po g with
    | some (.obj o) => some o
    | _ => none
  | _ => none

/-- `parseLegend` up to the property-group loop: scale reference, title,
format mixins, and the `orient`/`values` pass-throughs. -/
def legendBaseDef (m : UnitModel) (lg : LegendReq) (c : Channel) : Obj :=
  let fd := m.fieldDefF c
  let d := getLegendDefWithScale m c
  let d := setV d "title" (.str (title lg fd))
  let d := extendO d (formatMixins lg m c)
  let d :=
    match legendOrient lg with
    | some v => setV d "orient" v
    | none => d
  match legendValues lg with
  | some v => setV d "values" v
  | none => d

/-- The property-group loop over `['title', 'symbols', 'legend', 'labels']`:
a generation rule exists for symbols and labels; title and legend-frame pass
the override through verbatim. -/
def addGroups (d : Obj) (fd : FieldDef) (pg : PropGroups) (m : UnitModel) (c : Channel) : Obj :=
  let d := addGroup d "title" pg.title
  let d := addGroup d "symbols" (properties.symbols fd pg.symbols m c)
  let d := addGroup d "legend" pg.legend
  addGroup d "labels" (properties.labels fd pg.labels m c)

/-- `parseLegend(model, channel)` with the legend request passed explicitly
(the source reads it off the model; factored so theorems can vary it). -/
def parseLegendCore (m : UnitModel) (lg : LegendReq) (c : Channel) : Obj :=
  addGroups (legendBaseDef m lg c) (m.fieldDefF c) (legendPropsOf lg) m c

/-- `parseLegend(model, channel)` from the legend module. -/
def parseLegend (m : UnitModel) (c : Channel) : Obj :=
  parseLegendCore m (m.legendF c) c

/-- `parseLegendComponent(model)`: the reduce over `[COLOR, SIZE, SHAPE]`,
keeping a channel exactly when its legend request is truthy. -/
def parseLegendComponent (m : UnitModel) : List (Channel × Obj) :=
  [Channel.color, Channel.size, Channel.shape].foldl
    (fun acc c => if truthyLegend (m.legendF c) then acc ++ [(c, parseLegend m c)] else acc)
    []

/-! ## Lemmas: what the mark-default rule stage produces on each key -/

theorem getV_markRules_filled (mark : Mark) (enc : Encoding) (config : Config) :
    getV (markRules mark enc config) "filled"
      = if (getV config.mark "filled").isNone then
          some (.bool (!(mark = Mark.point) && !(mark = Mark.line) && !(mark = Mark.rule)))
        else none := by
  have h1 : ("filled" : String) ≠ "opacity" := by decide
  have h2 : ("filled" : String) ≠ "orient" := by decide
  have h3 : ("filled" : String) ≠ "align" := by decide
  unfold markRules
  split_ifs <;> simp_all [getV_setV_ne, getV_setV_same, getV]

theorem getV_markRules_opacity (mark : Mark) (enc : Encoding) (config : Config) :
    getV (markRules mark enc config) "opacity"
      = if (getV config.mark "opacity").isNone && opacityMarks.contains mark then
          (if !(isAggregate enc) || hasE enc Channel.detail then some (.num (7 / 10)) else none)
        else none := by
  have h1 : ("opacity" : String) ≠ "filled" := by decide
  have h2 : ("opacity" : String) ≠ "orient" := by decide
  have h3 : ("opacity" : String) ≠ "align" := by decide
  unfold markRules
  split_ifs <;> simp_all [getV_setV_ne, getV_setV_same, getV]

theorem getV_markRules_orient (mark : Mark) (enc : Encoding) (config : Config) :
    getV (markRules mark enc config) "orient"
      = if isMeasure (enc Channel.x) && !(isMeasure (enc Channel.y)) then
          some (.str "horizontal")
        else none := by
  have h1 : ("orient" : String) ≠ "filled" := by decide
  have h2 : ("orient" : String) ≠ "opacity" := by decide
  have h3 : ("orient" : String) ≠ "align" := by decide
  unfold markRules
  split_ifs <;> simp_all [getV_setV_ne, getV_setV_same, getV]

theorem getV_markRules_align (mark : Mark) (enc : Encoding) (config : Config) :
    getV (markRules mark enc config) "align"
      = if (getV config.mark "align").isNone then
          some (.str (if hasE enc Channel.x then "center" else "right"))
        else none := by
  have h1 : ("align" : String) ≠ "filled" := by decide
  have h2 : ("align" : String) ≠ "opacity" := by decide
  have h3 : ("align" : String) ≠ "orient" := by decide
  unfold markRules
  split_ifs <;> simp_all [getV_setV_ne, getV_setV_same, getV]

/-! ## Claim theorems: the mark-default resolver -/

/-- C3: for each of the four resolved properties (filled, opacity, orient,
align), an explicit non-undefined value in the base configuration survives
into the resolved mark configuration unchanged, whatever defaulting rule
would otherwise fire — `config.mark` is merged last, so it wins. -/
theorem initMarkConfig_explicit_preserved (mark : Mark) (enc : Encoding) (config : Config)
    (p : String) (v : Value)
    (hnd : (config.mark.map Prod.fst).Nodup)
    (_hp : p ∈ (["filled", "opacity", "orient", "align"] : List String))
    (hv : getV config.mark p = some v) :
    getV (initMarkConfig mark enc config) p = some v :=
  getV_extendO_present _ _ _ _ hnd hv

/-- Witness for C3: an explicit `filled: false` on a bar mark survives even
though the rule would have produced `true`. -/
theorem initMarkConfig_explicit_preserved_witness :
    getV (initMarkConfig Mark.bar (fun _ => none) ⟨[("filled", .bool false)]⟩) "filled"
      = some (.bool false) :=
  initMarkConfig_explicit_preserved Mark.bar (fun _ => none) ⟨[("filled", .bool false)]⟩
    "filled" (.bool false) (by decide) (by decide) rfl

/-- C5: with no explicit `filled` in the base configuration, point, line and
rule marks resolve to `filled = false` and every other mark type to
`filled = true`. -/
theorem initMarkConfig_filled_default (mark : Mark) (enc : Encoding) (config : Config)
    (h : getV config.mark "filled" = none) :
    ((mark = Mark.point ∨ mark = Mark.line ∨ mark = Mark.rule) →
      getV (initMarkConfig mark enc config) "filled" = some (.bool false))
    ∧ (¬(mark = Mark.point ∨ mark = Mark.line ∨ mark = Mark.rule) →
      getV (initMarkConfig mark enc config) "filled" = some (.bool true)) := by
  have hbase : getV (initMarkConfig mark enc config) "filled"
      = some (.bool (!(mark = Mark.point) && !(mark = Mark.line) && !(mark = Mark.rule))) := by
    unfold initMarkConfig
    rw [getV_extendO_absent _ _ _ h, getV_markRules_filled]
    simp [h]
  constructor
  · intro hm
    rw [hbase]
    rcases hm with hm | hm | hm <;> subst hm <;> simp
  · intro hm
    push_neg at hm
    rw [hbase]
    simp [hm.1, hm.2.1, hm.2.2]

/-- Witness for C5: an unconfigured line mark is unfilled, an unconfigured
area mark is filled. -/
theorem initMarkConfig_filled_default_witness :
    getV (initMarkConfig Mark.line (fun _ => none) ⟨[]⟩) "filled" = some (.bool false)
    ∧ getV (initMarkConfig Mark.area (fun _ => none) ⟨[]⟩) "filled" = some (.bool true) :=
  ⟨(initMarkConfig_filled_default Mark.line (fun _ => none) ⟨[]⟩ rfl).1 (Or.inr (Or.inl rfl)),
   (initMarkConfig_filled_default Mark.area (fun _ => none) ⟨[]⟩ rfl).2 (by decide)⟩

/-- C4: with no explicit orientation, x-measure/y-not resolves to
"horizontal" and y-measure/x-not resolves to cleared (absent, implicit
vertical); when both or neither axis is a measure, no rule fires and the
resolved orientation is exactly the base configuration's value. -/
theorem initMarkConfig_orient_rule (mark : Mark) (enc : Encoding) (config : Config)
    (hnd : (config.mark.map Prod.fst).Nodup) :
    (getV config.mark "orient" = none → isMeasure (enc Channel.x) = true →
      isMeasure (enc Channel.y) = false →
      getV (initMarkConfig mark enc config) "orient" = some (.str "horizontal"))
    ∧ (getV config.mark "orient" = none → isMeasure (enc Channel.y) = true →
      isMeasure (enc Channel.x) = false →
      getV (initMarkConfig mark enc config) "orient" = none)
    ∧ (isMeasure (enc Channel.x) = isMeasure (enc Channel.y) →
      getV (initMarkConfig mark enc config) "orient" = getV config.mark "orient") := by
  refine ⟨?_, ?_, ?_⟩
  · intro h hx hy
    unfold initMarkConfig
    rw [getV_extendO_absent _ _ _ h, getV_markRules_orient]
    simp [hx, hy]
  · intro h hy hx
    unfold initMarkConfig
    rw [getV_extendO_absent _ _ _ h, getV_markRules_orient]
    simp [hx, hy]
  · intro hxy
    have hr : getV (markRules mark enc config) "orient" = none := by
      rw [getV_markRules_orient]
      cases hy : isMeasure (enc Channel.y) <;> rw [hxy, hy] <;> simp
    cases hv : getV config.mark "orient" with
    | none =>
      unfold initMarkConfig
      rw [getV_extendO_absent _ _ _ hv, hr]
    | some v =>
      unfold initMarkConfig
      rw [getV_extendO_present _ _ _ _ hnd hv]

/-- Witness for C4: x quantitative / y nominal gives "horizontal"; swapping
gives cleared; both quantitative leaves an explicit value untouched. -/
theorem initMarkConfig_orient_rule_witness :
    getV (initMarkConfig Mark.bar
      (fun c => if c = Channel.x then some { field := some "q", type := some FType.quantitative }
                else if c = Channel.y then some { field := some "n", type := some FType.nominal }
                else none) ⟨[]⟩) "orient" = some (.str "horizontal")
    ∧ getV (initMarkConfig Mark.bar
      (fun c => if c = Channel.x then some { field := some "n", type := some FType.nominal }
                else if c = Channel.y then some { field := some "q", type := some FType.quantitative }
                else none) ⟨[]⟩) "orient" = none
    ∧ getV (initMarkConfig Mark.bar
      (fun c => if c = Channel.x ∨ c = Channel.y
                then some { field := some "q", type := some FType.quantitative } else none)
      ⟨[("orient", .str "horizontal")]⟩) "orient" = some (.str "horizontal") :=
  ⟨(initMarkConfig_orient_rule Mark.bar _ ⟨[]⟩ (by decide)).1 rfl rfl rfl,
   (initMarkConfig_orient_rule Mark.bar _ ⟨[]⟩ (by decide)).2.1 rfl rfl rfl,
   (initMarkConfig_orient_rule Mark.bar _ ⟨[("orient", .str "horizontal")]⟩
      (by decide)).2.2 rfl⟩

/-- C6: point/tick/circle/square with no explicit opacity resolve to 0.7
exactly when the encoding is not aggregated or detail is bound (nothing
otherwise); other mark types never receive an opacity default, their
resolved opacity being exactly the base configuration's. -/
theorem initMarkConfig_opacity_rule (mark : Mark) (enc : Encoding) (config : Config)
    (hnd : (config.mark.map Prod.fst).Nodup) :
    (mark ∈ opacityMarks → getV config.mark "opacity" = none →
      getV (initMarkConfig mark enc config) "opacity"
        = if !(isAggregate enc) || hasE enc Channel.detail then some (.num (7 / 10)) else none)
    ∧ (mark ∉ opacityMarks →
      getV (initMarkConfig mark enc config) "opacity" = getV config.mark "opacity") := by
  constructor
  · intro hm h
    cases hagg : (!(isAggregate enc) || hasE enc Channel.detail) with
    | true =>
      unfold initMarkConfig
      rw [getV_extendO_absent _ _ _ h, getV_markRules_opacity]
      simp [h, hm, hagg]
    | false =>
      have hr : getV (markRules mark enc config) "opacity" = none := by
        rw [getV_markRules_opacity]
        simp [h, hm, hagg]
      unfold initMarkConfig
      rw [getV_extendO_absent _ _ _ h, hr]
      simp [hagg]
  · intro hm
    have hr : getV (markRules mark enc config) "opacity" = none := by
      rw [getV_markRules_opacity]
      simp [hm]
    cases hv : getV config.mark "opacity" with
    | none =>
      unfold initMarkConfig
      rw [getV_extendO_absent _ _ _ hv, hr]
    | some v =>
      unfold initMarkConfig
      rw [getV_extendO_present _ _ _ _ hnd hv]

/-- Witness for C6: a raw point mark gets opacity 0.7, an aggregated point
mark without detail gets none, and a bar mark gets none. -/
theorem initMarkConfig_opacity_rule_witness :
    getV (initMarkConfig Mark.point (fun _ => none) ⟨[]⟩) "opacity" = some (.num (7 / 10))
    ∧ getV (initMarkConfig Mark.point
        (fun c => if c = Channel.x
          then some { field := some "q", type := some FType.quantitative, aggregate := some "mean" }
          else none) ⟨[]⟩) "opacity" = none
    ∧ getV (initMarkConfig Mark.bar (fun _ => none) ⟨[]⟩) "opacity" = getV (⟨[]⟩ : Config).mark "opacity" := by
  refine ⟨?_, ?_, ?_⟩
  · have h := (initMarkConfig_opacity_rule Mark.point (fun _ => none) ⟨[]⟩ (by decide)).1
      (by decide) rfl
    rw [h]
    rfl
  · have h := (initMarkConfig_opacity_rule Mark.point
      (fun c => if c = Channel.x
        then some { field := some "q", type := some FType.quantitative, aggregate := some "mean" }
        else none) ⟨[]⟩ (by decide)).1 (by decide) rfl
    rw [h]
    rfl
  · exact (initMarkConfig_opacity_rule Mark.bar (fun _ => none) ⟨[]⟩ (by decide)).2 (by decide)

/-! ## Sample models for witnesses and counterexamples -/

/-- An ordinal field bound to color. -/
def fdOrd : FieldDef := { field := some "o", type := some FType.ordinal }

/-- A plain quantitative field. -/
def fdQuant : FieldDef := { field := some "q", type := some FType.quantitative }

/-- A sample resolved model: filled point mark, ordinal color field with a
structured color-legend request carrying a labels override, sensible scale
names, and a format oracle returning a plain format mixin. -/
def mSample : UnitModel :=
  { markV := Mark.point
    fieldDefF := fun c => if c = Channel.color then fdOrd else {}
    legendF := fun c =>
      if c = Channel.color then
        .spec { properties := some { labels := some [("foo", .str "bar")] } }
      else .undef
    hasF := fun c => c = Channel.color
    scaleNameF := fun k =>
      match k with
      | .ch .color => "color"
      | .colorLegend => "color_legend"
      | .colorLegendLabel => "color_legend_label"
      | _ => "s"
    configV := ⟨[("filled", .bool true), ("color", .str "#4682b4")]⟩
    utilFormatMixinsF := fun _ fmt =>
      match fmt with
      | some f => [("format", .str f)]
      | none => []
    timeFormatF := fun _ => "%Y" }

/-- A variant with a binned quantitative color field and an explicit format
request on the legend. -/
def mBinned : UnitModel :=
  { mSample with
    fieldDefF := fun c =>
      if c = Channel.color then { field := some "q", type := some FType.quantitative, bin := true }
      else {}
    legendF := fun c =>
      if c = Channel.color then .spec { format := some "04d" } else .undef }

/-- A variant whose only legend request is a boolean one on size. -/
def mSizeOnly : UnitModel :=
  { mSample with
    fieldDefF := fun c => if c = Channel.size then fdQuant else {}
    legendF := fun c => if c = Channel.size then .bool true else .undef
    hasF := fun c => c = Channel.size }

/-! ## Claim theorems: the legend compiler -/

/-- C2: the color legend binds to the dedicated ordinal color-legend scale
exactly when the field's type is ordinal, or it is binned, or it carries a
time-granularity transform (that is `useColorLegendScale`), and to the
regular color scale otherwise; the scale reference is attached under "fill"
when the resolved mark configuration's filled flag is true and under
"stroke" otherwise. -/
theorem getLegendDefWithScale_color (m : UnitModel) (f : Bool)
    (hf : getV m.configV.mark "filled" = some (.bool f)) :
    (useColorLegendScale (m.fieldDefF Channel.color) = true ↔
      ((m.fieldDefF Channel.color).type = some FType.ordinal
        ∨ (m.fieldDefF Channel.color).bin = true
        ∨ (m.fieldDefF Channel.color).timeUnit.isSome = true))
    ∧ getLegendDefWithScale m Channel.color
        = [((if f then "fill" else "stroke"),
            .str (m.scaleNameF
              (if useColorLegendScale (m.fieldDefF Channel.color) then .colorLegend
               else .ch Channel.color)))] := by
  constructor
  · constructor
    · intro h
      simpa [useColorLegendScale, or_assoc] using h
    · intro h
      simpa [useColorLegendScale, or_assoc] using h
  · have hm : markFilled m = f := by simp [markFilled, hf, truthyO, truthyV]
    cases huse : useColorLegendScale (m.fieldDefF Channel.color) <;>
      cases f <;> simp [getLegendDefWithScale, hm, huse]

/-- Witness for C2: on the sample model (filled mark, ordinal color field)
the legend def is exactly a fill reference to the color-legend scale. -/
theorem getLegendDefWithScale_color_witness :
    getLegendDefWithScale mSample Channel.color = [("fill", .str "color_legend")] := by
  rw [(getLegendDefWithScale_color mSample true rfl).2]
  rfl

/-- C7: a binned field yields an empty format-mixin object regardless of any
explicit format request (so the compiled legend is unchanged whatever format
string the request carries), and a non-binned field delegates to the
external format-mixin resolver with the request's explicit format. -/
theorem formatMixins_bin_rule (m : UnitModel) (lg : LegendReq) (c : Channel)
    (ls : LegendSpec) (f1 f2 : Option String) :
    ((m.fieldDefF c).bin = true → formatMixins lg m c = [])
    ∧ ((m.fieldDefF c).bin = false →
        formatMixins lg m c = m.utilFormatMixinsF c (legendFormat lg))
    ∧ ((m.fieldDefF c).bin = true →
        parseLegendCore m (.spec { ls with format := f1 }) c
          = parseLegendCore m (.spec { ls with format := f2 }) c) := by
  refine ⟨?_, ?_, ?_⟩
  · intro hb
    simp [formatMixins, hb]
  · intro hb
    simp [formatMixins, hb]
  · intro hb
    simp [parseLegendCore, legendBaseDef, formatMixins, hb, title, legendOrient,
      legendValues, legendPropsOf]

/-- Witness for C7: for the binned model the mixins are empty, and changing
the explicit format from "04d" to "x" leaves the compiled legend equal. -/
theorem formatMixins_bin_rule_witness :
    formatMixins (mBinned.legendF Channel.color) mBinned Channel.color = []
    ∧ parseLegendCore mBinned (.spec { format := some "04d" }) Channel.color
        = parseLegendCore mBinned (.spec { format := some "x" }) Channel.color :=
  ⟨(formatMixins_bin_rule mBinned (mBinned.legendF Channel.color) Channel.color
      {} (some "04d") (some "x")).1 rfl,
   (formatMixins_bin_rule mBinned (mBinned.legendF Channel.color) Channel.color
      {} (some "04d") (some "x")).2.2 rfl⟩

/-- C8: the legend-compilation entry point iterates exactly color, size and
shape; the output mapping holds an entry for a channel precisely when that
channel is one of the three and its legend request is truthy, and that entry
is its compiled legend. -/
theorem parseLegendComponent_channels (m : UnitModel) (c : Channel) :
    (parseLegendComponent m).lookup c
      = if (c = Channel.color ∨ c = Channel.size ∨ c = Channel.shape)
          ∧ truthyLegend (m.legendF c) = true
        then some (parseLegend m c) else none := by
  cases h1 : truthyLegend (m.legendF Channel.color) <;>
    cases h2 : truthyLegend (m.legendF Channel.size) <;>
      cases h3 : truthyLegend (m.legendF Channel.shape) <;>
        cases c <;>
          simp_all [parseLegendComponent, List.lookup] <;>
            try rfl

/-- Witness for C8: the size-only model compiles to a single size entry and
no color entry. -/
theorem parseLegendComponent_channels_witness :
    (parseLegendComponent mSizeOnly).lookup Channel.size = some (parseLegend mSizeOnly Channel.size)
    ∧ (parseLegendComponent mSizeOnly).lookup Channel.color = none := by
  constructor
  · rw [parseLegendComponent_channels mSizeOnly Channel.size]
    rfl
  · rw [parseLegendComponent_channels mSizeOnly Channel.color]
    rfl

/-! ## Lemmas: the property-group loop -/

/-- The legend definitions we reach always keep their "properties" key an
object (or absent); the lemmas below thread this invariant. -/
def propsObjOk (d : Obj) : Prop :=
  ∀ x, getV d "properties" = some x → ∃ po, x = Value.obj po

theorem propsObjOk_of_absent (d : Obj) (h : getV d "properties" = none) :
    propsObjOk d := by
  intro x hx
  rw [h] at hx
  cases hx

theorem getGroup_addGroup_same (d : Obj) (g : String) (v : Option Obj)
    (hok : propsObjOk d) :
    getGroup (addGroup d g v) g
      = match v with
        | some o => if o.isEmpty then getGroup d g else some o
        | none => getGroup d g := by
  cases v with
  | none => rfl
  | some o =>
    by_cases he : o.isEmpty = true
    · simp [addGroup, he]
    · simp only [addGroup, he, if_false, Bool.false_eq_true]
      cases hp : getV d "properties" with
      | none => simp [setGroup, getGroup, hp, getV_setV_same]
      | some x =>
        obtain ⟨po, rfl⟩ := hok x hp
        simp [setGroup, getGroup, hp, getV_setV_same]

theorem getGroup_addGroup_ne (d : Obj) (g g2 : String) (v : Option Obj)
    (hne : g2 ≠ g) (hok : propsObjOk d) :
    getGroup (addGroup d g v) g2 = getGroup d g2 := by
  have hne2 : ¬ (g = g2) := Ne.symm hne
  cases v with
  | none => rfl
  | some o =>
    by_cases he : o.isEmpty = true
    · simp [addGroup, he]
    · simp only [addGroup, he, if_false, Bool.false_eq_true]
      cases hp : getV d "properties" with
      | none => simp [setGroup, getGroup, hp, getV_setV_same, getV_setV_ne _ _ _ _ hne, getV, hne2]
      | some x =>
        obtain ⟨po, rfl⟩ := hok x hp
        simp [setGroup, getGroup, hp, getV_setV_same, getV_setV_ne _ _ _ _ hne, hne2]

theorem propsObjOk_addGroup (d : Obj) (g : String) (v : Option Obj)
    (hok : propsObjOk d) : propsObjOk (addGroup d g v) := by
  cases v with
  | none => exact hok
  | some o =>
    by_cases he : o.isEmpty = true
    · simpa [addGroup, he] using hok
    · simp only [addGroup, he, if_false, Bool.false_eq_true]
      intro x hx
      cases hp : getV d "properties" with
      | none =>
        simp [setGroup, hp, getV_setV_same] at hx
        exact ⟨_, hx.symm⟩
      | some y =>
        obtain ⟨po, rfl⟩ := hok y hp
        simp [setGroup, hp, getV_setV_same] at hx
        exact ⟨_, hx.symm⟩

/-- The symbols group of a compiled legend, in terms of the generation-rule
value, provided the definition had no "properties" key before the loop. -/
theorem getGroup_addGroups_symbols (d : Obj) (fd : FieldDef) (pg : PropGroups)
    (m : UnitModel) (c : Channel) (hd : getV d "properties" = none) :
    getGroup (addGroups d fd pg m c) "symbols"
      = match properties.symbols fd pg.symbols m c with
        | some o => if o.isEmpty then none else some o
        | none => none := by
  have hok0 : propsObjOk d := propsObjOk_of_absent d hd
  have hok1 := propsObjOk_addGroup d "title" pg.title hok0
  have hok2 := propsObjOk_addGroup _ "symbols" (properties.symbols fd pg.symbols m c) hok1
  have hok3 := propsObjOk_addGroup _ "legend" pg.legend hok2
  have hg0 : getGroup d "symbols" = none := by simp [getGroup, hd]
  have hg1 : getGroup (addGroup d "title" pg.title) "symbols" = none := by
    rw [getGroup_addGroup_ne _ "title" "symbols" _ (by decide) hok0, hg0]
  unfold addGroups
  rw [getGroup_addGroup_ne _ "labels" "symbols" _ (by decide) hok3,
      getGroup_addGroup_ne _ "legend" "symbols" _ (by decide) hok2,
      getGroup_addGroup_same _ "symbols" _ hok1, hg1]

/-- The legend definition before the property-group loop has no "properties"
key, as long as the external format mixins do not themselves carry one. -/
theorem getV_legendBaseDef_properties (m : UnitModel) (lg : LegendReq) (c : Channel)
    (hfm : getV (m.utilFormatMixinsF c (legendFormat lg)) "properties" = none) :
    getV (legendBaseDef m lg c) "properties" = none := by
  have h0 : getV (getLegendDefWithScale m c) "properties" = none := by
    cases c <;> first
      | rfl
      | (unfold getLegendDefWithScale
         split_ifs <;> rfl)
  have hmix : getV (formatMixins lg m c) "properties" = none := by
    unfold formatMixins
    split_ifs
    · rfl
    · exact hfm
  have h1 : getV (setV (getLegendDefWithScale m c) "title"
      (.str (title lg (m.fieldDefF c)))) "properties" = none := by
    rw [getV_setV_ne _ _ _ _ (by decide)]
    exact h0
  have h2 : getV (extendO (setV (getLegendDefWithScale m c) "title"
      (.str (title lg (m.fieldDefF c)))) (formatMixins lg m c)) "properties" = none := by
    rw [getV_extendO_absent _ _ _ hmix]
    exact h1
  unfold legendBaseDef
  cases ho : legendOrient lg <;> cases hv : legendValues lg <;>
    simp only [ho, hv] <;>
      (try rw [getV_setV_ne _ _ _ _ (by decide)]) <;>
        (try rw [getV_setV_ne _ _ _ _ (by decide)]) <;>
          exact h2

/-! ## Claim theorems: property groups (C1, C10) -/

/-- The symbols override used in the C1 witness. -/
def symOvObj : Obj := [("shape", .obj [("value", .str "diamond")]), ("extra", .num 1)]

/-- A structured color-legend request with a symbols override. -/
def symOvSpec : LegendSpec := { properties := some { symbols := some symOvObj } }

/-- The sample model carrying the symbols override on the color legend. -/
def mSymOv : UnitModel :=
  { mSample with
    legendF := fun c => if c = Channel.color then .spec symOvSpec else .undef }

/-- Counterexample for C1 as stated: the labels group also has a generation
rule, but its override is ignored, not merged.  On `mSample` the request
supplies a labels override `{foo: "bar"}`; the compiled labels group exists
(the ordinal rule fired) yet carries no "foo" key, where the claim demands
every non-conflicting override key be present in the merged result. -/
theorem parseLegend_labels_override_dropped :
    (legendPropsOf (mSample.legendF Channel.color)).labels = some [("foo", .str "bar")]
    ∧ getGroup (parseLegend mSample Channel.color) "labels"
        = some [("text", .obj [("scale", .str "color_legend"), ("field", .str "data")])]
    ∧ (getGroup (parseLegend mSample Channel.color) "labels").map (fun o => getV o "foo")
        = some none :=
  ⟨rfl, rfl, rfl⟩

/-- C1 amended: for the symbols group the claim holds — with an explicit
symbols override supplied, the compiled symbols group is the rule's
generated value with the override extended on top (absent only if that
merge is empty), the override wins on every same-named key, and every
key the override does not set keeps the generated value.  (For the labels
group the source ignores the override, see the counterexample.) -/
theorem parseLegend_symbols_override_merge (m : UnitModel) (c : Channel)
    (ls : LegendSpec) (pg : PropGroups) (ov : Obj)
    (hp : ls.properties = some pg)
    (hs : pg.symbols = some ov)
    (hnd : (ov.map Prod.fst).Nodup)
    (hfm : getV (m.utilFormatMixinsF c ls.format) "properties" = none) :
    (getGroup (parseLegendCore m (.spec ls) c) "symbols"
      = (if (extendO (symbolsBase (m.fieldDefF c) m c) ov).isEmpty then none
         else some (extendO (symbolsBase (m.fieldDefF c) m c) ov)))
    ∧ (∀ k v, getV ov k = some v →
        getV (extendO (symbolsBase (m.fieldDefF c) m c) ov) k = some v)
    ∧ (∀ k, getV ov k = none →
        getV (extendO (symbolsBase (m.fieldDefF c) m c) ov) k
          = getV (symbolsBase (m.fieldDefF c) m c) k) := by
  refine ⟨?_, fun k v hv => getV_extendO_present _ _ _ _ hnd hv,
    fun k hn => getV_extendO_absent _ _ _ hn⟩
  have hbase : getV (legendBaseDef m (.spec ls) c) "properties" = none :=
    getV_legendBaseDef_properties m (.spec ls) c (by simpa [legendFormat] using hfm)
  have hpg : legendPropsOf (.spec ls) = pg := by simp [legendPropsOf, hp]
  unfold parseLegendCore
  rw [getGroup_addGroups_symbols _ _ _ _ _ hbase, hpg, hs]
  unfold properties.symbols
  by_cases he : (extendO (symbolsBase (m.fieldDefF c) m c) ov).isEmpty = true <;>
    simp [he]

/-- Witness for C1 (amended): on the override model the compiled symbols
group is the merge; the override's "shape" wins and the generated
"strokeWidth" survives. -/
theorem parseLegend_symbols_override_merge_witness :
    getGroup (parseLegendCore mSymOv (.spec symOvSpec) Channel.color) "symbols"
      = some (extendO (symbolsBase (mSymOv.fieldDefF Channel.color) mSymOv Channel.color) symOvObj)
    ∧ getV (extendO (symbolsBase (mSymOv.fieldDefF Channel.color) mSymOv Channel.color) symOvObj)
        "shape" = some (.obj [("value", .str "diamond")])
    ∧ getV (extendO (symbolsBase (mSymOv.fieldDefF Channel.color) mSymOv Channel.color) symOvObj)
        "strokeWidth" = some (.obj [("value", .num 0)]) := by
  obtain ⟨h1, h2, h3⟩ := parseLegend_symbols_override_merge mSymOv Channel.color
    symOvSpec { symbols := some symOvObj } symOvObj rfl rfl (by decide) rfl
  refine ⟨?_, h2 "shape" _ rfl, ?_⟩
  · rw [h1]
    rfl
  · rw [h3 "strokeWidth" rfl]
    rfl

/-- C10: the symbols rule runs for every compiled legend (the override may
be absent — `lg` is arbitrary); for any non-color legend channel (size or
shape) the generated symbols object carries an entry under "fill" when the
mark is filled or under "stroke" otherwise — produced by the fallback to the
generic mark color when nothing else set it — so the rule's value is never
`undefined` and the compiled legend always shows a symbols group. -/
theorem parseLegend_symbols_always_present (m : UnitModel) (lg : LegendReq) (c : Channel)
    (hc : c = Channel.size ∨ c = Channel.shape)
    (hfm : getV (m.utilFormatMixinsF c (legendFormat lg)) "properties" = none) :
    ((getV (symbolsBase (m.fieldDefF c) m c)
        (if markFilled m then "fill" else "stroke")).isSome = true)
    ∧ (symbolsColorValue (m.fieldDefF c) m c = none →
        getV (symbolsWidthStep (symbolsConfigStep (symbolsShapeStep m.markV) m c) m)
            (if markFilled m then "fill" else "stroke") = none →
        getV (symbolsBase (m.fieldDefF c) m c) (if markFilled m then "fill" else "stroke")
          = some (valueRef (getV m.configV.mark "color")))
    ∧ properties.symbols (m.fieldDefF c) (legendPropsOf lg).symbols m c ≠ none
    ∧ getGroup (parseLegendCore m lg c) "symbols" ≠ none := by
  have hcc : ¬ (c = Channel.color) := by
    rcases hc with h | h <;> subst h <;> decide
  have h1 : (getV (symbolsBase (m.fieldDefF c) m c)
      (if markFilled m then "fill" else "stroke")).isSome = true := by
    unfold symbolsBase symbolsColorStep
    cases hv : symbolsColorValue (m.fieldDefF c) m c with
    | some v => simp [getV_setV_same]
    | none =>
      simp only [hv, hcc, if_false]
      cases hg : getV (symbolsWidthStep (symbolsConfigStep (symbolsShapeStep m.markV) m c) m)
          (if markFilled m then "fill" else "stroke") with
      | some existing =>
        cases ht : truthyV existing <;> simp [hg, ht, getV_setV_same]
      | none => simp [hg, getV_setV_same]
  have h2 : symbolsColorValue (m.fieldDefF c) m c = none →
      getV (symbolsWidthStep (symbolsConfigStep (symbolsShapeStep m.markV) m c) m)
          (if markFilled m then "fill" else "stroke") = none →
      getV (symbolsBase (m.fieldDefF c) m c) (if markFilled m then "fill" else "stroke")
        = some (valueRef (getV m.configV.mark "color")) := by
    intro hv hg
    unfold symbolsBase symbolsColorStep
    simp [hv, hg, hcc, getV_setV_same]
  have hbne : symbolsBase (m.fieldDefF c) m c ≠ [] := by
    intro hnil
    rw [hnil] at h1
    simp [getV] at h1
  have hmerge : extendO (symbolsBase (m.fieldDefF c) m c)
      (((legendPropsOf lg).symbols).getD []) ≠ [] :=
    extendO_ne_nil_left _ _ hbne
  have h3 : properties.symbols (m.fieldDefF c) (legendPropsOf lg).symbols m c ≠ none := by
    unfold properties.symbols
    simp [List.isEmpty_iff, hmerge]
  have hbase : getV (legendBaseDef m lg c) "properties" = none :=
    getV_legendBaseDef_properties m lg c hfm
  refine ⟨h1, h2, h3, ?_⟩
  unfold parseLegendCore
  rw [getGroup_addGroups_symbols _ _ _ _ _ hbase]
  cases hps : properties.symbols (m.fieldDefF c) (legendPropsOf lg).symbols m c with
  | none => exact absurd hps h3
  | some o =>
    have ho : o = extendO (symbolsBase (m.fieldDefF c) m c)
        (((legendPropsOf lg).symbols).getD []) := by
      unfold properties.symbols at hps
      by_cases he : (extendO (symbolsBase (m.fieldDefF c) m c)
          (((legendPropsOf lg).symbols).getD [])).isEmpty = true
      · simp [he] at hps
      · simp [he] at hps
        exact hps.symm
    have : o.isEmpty = false := by
      rw [ho]
      simp [List.isEmpty_iff, hmerge]
    simp [this]

/-- Witness for C10: the size-only model's compiled legend carries a symbols
group, whose swatch fill exists in the generated object. -/
theorem parseLegend_symbols_always_present_witness :
    ((getV (symbolsBase (mSizeOnly.fieldDefF Channel.size) mSizeOnly Channel.size)
        (if markFilled mSizeOnly then "fill" else "stroke")).isSome = true)
    ∧ getGroup (parseLegendCore mSizeOnly (.bool true) Channel.size) "symbols" ≠ none := by
  obtain ⟨h1, h2, h3, h4⟩ := parseLegend_symbols_always_present mSizeOnly (.bool true)
    Channel.size (Or.inl rfl) rfl
  exact ⟨h1, h4⟩

/-! ## Heap model for the frame-effect claim

The two source functions mutate objects (`extend`, `applyMarkConfig`,
property assignments), so to state that they never mutate their *inputs* we
re-embed them in heap-passing style: a heap is a list of objects, references
are indices, and every JS statement that writes into an object becomes an
explicit `hwrite`.  The input objects — the base configuration's mark object
and the legend request's per-group override objects — sit in the heap at the
caller's references; the legend definition and the symbols object are
allocated fresh at the end of the heap.  The frame theorem shows every
pre-existing cell is untouched, and the agreement theorem shows the
heap-passing versions compute exactly the pure embeddings above. -/

/-- Read an object from the heap (an out-of-range reference reads as the
empty object, which never arises under the theorems' hypotheses). -/
def hread (σ : List Obj) (r : Nat) : Obj :=
  σ.getD r []

/-- Overwrite a heap cell in place. -/
def hwrite (σ : List Obj) (r : Nat) (o : Obj) : List Obj :=
  σ.set r o

theorem hread_hwrite_ne (σ : List Obj) (r : Nat) (o : Obj) (i : Nat) (h : i ≠ r) :
    hread (hwrite σ r o) i = hread σ i := by
  unfold hread hwrite
  rw [List.getD_eq_getElem?_getD, List.getD_eq_getElem?_getD,
    List.getElem?_set_ne (Ne.symm h)]

theorem hread_hwrite_self (σ : List Obj) (r : Nat) (o : Obj) (h : r < σ.length) :
    hread (hwrite σ r o) r = o := by
  unfold hread hwrite
  rw [List.getD_eq_getElem?_getD, List.getElem?_set_self h]
  rfl

theorem hread_append_lt (σ : List Obj) (o : Obj) (i : Nat) (h : i < σ.length) :
    hread (σ ++ [o]) i = hread σ i := by
  unfold hread
  rw [List.getD_eq_getElem?_getD, List.getD_eq_getElem?_getD, List.getElem?_append_left h]

theorem hread_append_self (σ : List Obj) (o : Obj) :
    hread (σ ++ [o]) σ.length = o := by
  unfold hread
  rw [List.getD_eq_getElem?_getD, List.getElem?_concat_length]
  rfl

/-- The invariant threaded through a heap computation that allocated one
fresh object at `σ0.length` on a base heap `σ0`: the heap is strictly
bigger, every original cell is unchanged, and the fresh cell holds `cur`. -/
def DInv (σ0 : List Obj) (cur : Obj) (σ : List Obj) : Prop :=
  σ0.length < σ.length
  ∧ (∀ i, i < σ0.length → hread σ i = hread σ0 i)
  ∧ hread σ σ0.length = cur

theorem DInv_alloc (σ0 : List Obj) (o : Obj) : DInv σ0 o (σ0 ++ [o]) := by
  refine ⟨by simp, fun i hi => hread_append_lt σ0 o i hi, hread_append_self σ0 o⟩

theorem DInv_write {σ0 : List Obj} {cur : Obj} {σ : List Obj}
    (h : DInv σ0 cur σ) (f : Obj → Obj) :
    DInv σ0 (f cur) (hwrite σ σ0.length (f (hread σ σ0.length))) := by
  obtain ⟨hlen, hfr, hcur⟩ := h
  refine ⟨by simpa [hwrite] using hlen, fun i hi => ?_, ?_⟩
  · rw [hread_hwrite_ne _ _ _ _ (Nat.ne_of_lt hi), hfr i hi]
  · rw [hread_hwrite_self _ _ _ hlen, hcur]

/-- A conditional in-place update of the fresh cell. -/
def condStep (σ : List Obj) (r : Nat) (b : Bool) (f : Obj → Obj) : List Obj :=
  if b then hwrite σ r (f (hread σ r)) else σ

theorem DInv_condStep {σ0 : List Obj} {cur : Obj} {σ : List Obj}
    (h : DInv σ0 cur σ) (b : Bool) (f : Obj → Obj) :
    DInv σ0 (if b then f cur else cur) (condStep σ σ0.length b f) := by
  cases b with
  | false => simpa [condStep] using h
  | true => simpa [condStep] using DInv_write h f

/-! ### Heap-passing `initMarkConfig` -/

/-- Stage 1: allocate the reduce accumulator `{}`. -/
def mcH1 (σ0 : List Obj) : List Obj := σ0 ++ [[]]

/-- Stage 2: the `filled` rule (reads `config.mark` from the heap). -/
def mcH2 (mark : Mark) (σ0 : List Obj) (rMark : Nat) : List Obj :=
  condStep (mcH1 σ0) σ0.length (getV (hread (mcH1 σ0) rMark) "filled").isNone
    (fun o => setV o "filled"
      (.bool (!(mark = Mark.point) && !(mark = Mark.line) && !(mark = Mark.rule))))

/-- Stage 3: the `opacity` rule. -/
def mcH3 (mark : Mark) (enc : Encoding) (σ0 : List Obj) (rMark : Nat) : List Obj :=
  condStep (mcH2 mark σ0 rMark) σ0.length
    ((getV (hread (mcH2 mark σ0 rMark) rMark) "opacity").isNone
      && opacityMarks.contains mark
      && (!(isAggregate enc) || hasE enc Channel.detail))
    (fun o => setV o "opacity" (.num (7 / 10)))

/-- Stage 4: the `orient` rule (the intentional `undefined` assignment in
the y-measure case is key absence, as in the pure embedding). -/
def mcH4 (mark : Mark) (enc : Encoding) (σ0 : List Obj) (rMark : Nat) : List Obj :=
  condStep (mcH3 mark enc σ0 rMark) σ0.length
    (isMeasure (enc Channel.x) && !(isMeasure (enc Channel.y)))
    (fun o => setV o "orient" (.str "horizontal"))

/-- Stage 5: the `align` rule. -/
def mcH5 (mark : Mark) (enc : Encoding) (σ0 : List Obj) (rMark : Nat) : List Obj :=
  condStep (mcH4 mark enc σ0 rMark) σ0.length
    (getV (hread (mcH4 mark enc σ0 rMark) rMark) "align").isNone
    (fun o => setV o "align" (.str (if hasE enc Channel.x then "center" else "right")))

/-- Stage 6: `extend(cfg, config.mark)` mutates the accumulator. -/
def mcH6 (mark : Mark) (enc : Encoding) (σ0 : List Obj) (rMark : Nat) : List Obj :=
  hwrite (mcH5 mark enc σ0 rMark) σ0.length
    (extendO (hread (mcH5 mark enc σ0 rMark) σ0.length)
      (hread (mcH5 mark enc σ0 rMark) rMark))

/-- Heap-passing `initMarkConfig`: final heap and the reference of the
returned configuration object. -/
def initMarkConfigH (mark : Mark) (enc : Encoding) (σ0 : List Obj) (rMark : Nat) :
    List Obj × Nat :=
  (mcH6 mark enc σ0 rMark, σ0.length)

/-- The heap-passing mark-default resolver preserves every pre-existing heap
cell (in particular the base configuration object at `rMark`) and its result
cell holds exactly the pure `initMarkConfig` of the input configuration. -/
theorem initMarkConfigH_spec (mark : Mark) (enc : Encoding) (σ0 : List Obj) (rMark : Nat)
    (hr : rMark < σ0.length) :
    (∀ i, i < σ0.length →
      hread (initMarkConfigH mark enc σ0 rMark).1 i = hread σ0 i)
    ∧ hread (initMarkConfigH mark enc σ0 rMark).1 (initMarkConfigH mark enc σ0 rMark).2
        = initMarkConfig mark enc ⟨hread σ0 rMark⟩ := by
  have h1 : DInv σ0 [] (mcH1 σ0) := DInv_alloc σ0 []
  have e1 : hread (mcH1 σ0) rMark = hread σ0 rMark := h1.2.1 rMark hr
  have h2 : DInv σ0
      (if (getV (hread (mcH1 σ0) rMark) "filled").isNone then
        setV [] "filled"
          (.bool (!(mark = Mark.point) && !(mark = Mark.line) && !(mark = Mark.rule)))
      else []) (mcH2 mark σ0 rMark) :=
    DInv_condStep h1 _ _
  have e2 : hread (mcH2 mark σ0 rMark) rMark = hread σ0 rMark := h2.2.1 rMark hr
  have h3 : DInv σ0 _ (mcH3 mark enc σ0 rMark) := DInv_condStep h2 _ _
  have e3 : hread (mcH3 mark enc σ0 rMark) rMark = hread σ0 rMark := h3.2.1 rMark hr
  have h4 : DInv σ0 _ (mcH4 mark enc σ0 rMark) := DInv_condStep h3 _ _
  have e4 : hread (mcH4 mark enc σ0 rMark) rMark = hread σ0 rMark := h4.2.1 rMark hr
  have h5 : DInv σ0 _ (mcH5 mark enc σ0 rMark) := DInv_condStep h4 _ _
  have e5 : hread (mcH5 mark enc σ0 rMark) rMark = hread σ0 rMark := h5.2.1 rMark hr
  have h6 : DInv σ0 _ (mcH6 mark enc σ0 rMark) :=
    DInv_write h5 (fun o => extendO o (hread (mcH5 mark enc σ0 rMark) rMark))
  refine ⟨fun i hi => h6.2.1 i hi, ?_⟩
  show hread (mcH6 mark enc σ0 rMark) σ0.length
    = initMarkConfig mark enc ⟨hread σ0 rMark⟩
  rw [h6.2.2, e1, e2, e4, e5]
  show extendO _ (hread σ0 rMark)
    = extendO (markRules mark enc ⟨hread σ0 rMark⟩) (hread σ0 rMark)
  congr 1
  unfold markRules
  by_cases hop : (getV (hread σ0 rMark) "opacity").isNone = true <;>
    by_cases hmk : opacityMarks.contains mark = true <;>
      by_cases hag : (!(isAggregate enc) || hasE enc Channel.detail) = true <;>
        simp [hop, hmk, hag]

/-! ### Heap-passing legend compiler -/

/-- Per-group override references into the heap. -/
structure GroupRefs where
  title : Option Nat := none
  symbols : Option Nat := none
  legend : Option Nat := none
  labels : Option Nat := none

/-- A structured legend request whose override objects live in the heap. -/
structure LegendSpecH where
  title : Option String := none
  format : Option String := none
  orient : Option Value := none
  values : Option Value := none
  properties : Option GroupRefs := none

/-- A legend request with heap-allocated override-group objects; the scalar
fields are carried directly. -/
inductive LegendReqH where
  | undef
  | bool (b : Bool)
  | spec (s : LegendSpecH)

/-- Dereference the group override objects against a heap. -/
def derefGroups (σ : List Obj) (gr : GroupRefs) : PropGroups :=
  { title := gr.title.map (hread σ), symbols := gr.symbols.map (hread σ),
    legend := gr.legend.map (hread σ), labels := gr.labels.map (hread σ) }

/-- Dereference a heap legend request into the pure one. -/
def derefLegend (σ : List Obj) : LegendReqH → LegendReq
  | .undef => .undef
  | .bool b => .bool b
  | .spec s =>
    .spec { title := s.title
            format := s.format
            orient := s.orient
            values := s.values
            properties := s.properties.map (derefGroups σ) }

/-- `legend.properties || {}` at the reference level. -/
def groupRefsOf : LegendReqH → GroupRefs
  | .spec s => s.properties.getD {}
  | _ => {}

/-- The model with its mark configuration read from the heap cell `rMark`. -/
def modelAt (m : UnitModel) (σ : List Obj) (rMark : Nat) : UnitModel :=
  { m with configV := ⟨hread σ rMark⟩ }

theorem modelAt_congr {σA σB : List Obj} (m : UnitModel) (rMark : Nat)
    (h : hread σA rMark = hread σB rMark) :
    modelAt m σA rMark = modelAt m σB rMark := by
  unfold modelAt
  rw [h]

theorem optmap_hread_eq {σA σB : List Obj} (o : Option Nat)
    (h : ∀ r, o = some r → hread σA r = hread σB r) :
    o.map (hread σA) = o.map (hread σB) := by
  cases o with
  | none => rfl
  | some r => simp [h r rfl]

/-- The scalar title of a heap legend request. -/
def titleH : LegendReqH → FieldDef → String
  | .spec s, fd =>
    match s.title with
    | some t => if t.isEmpty then fieldTitle fd else t
    | none => fieldTitle fd
  | _, fd => fieldTitle fd

/-- The scalar format of a heap legend request. -/
def legendFormatH : LegendReqH → Option String
  | .spec s => s.format
  | _ => none

/-- The scalar orient of a heap legend request. -/
def legendOrientH : LegendReqH → Option Value
  | .spec s => s.orient
  | _ => none

/-- The scalar values of a heap legend request. -/
def legendValuesH : LegendReqH → Option Value
  | .spec s => s.values
  | _ => none

theorem title_deref (σ : List Obj) (lg : LegendReqH) (fd : FieldDef) :
    title (derefLegend σ lg) fd = titleH lg fd := by
  cases lg <;> rfl

theorem legendFormat_deref (σ : List Obj) (lg : LegendReqH) :
    legendFormat (derefLegend σ lg) = legendFormatH lg := by
  cases lg <;> rfl

theorem legendOrient_deref (σ : List Obj) (lg : LegendReqH) :
    legendOrient (derefLegend σ lg) = legendOrientH lg := by
  cases lg <;> rfl

theorem legendValues_deref (σ : List Obj) (lg : LegendReqH) :
    legendValues (derefLegend σ lg) = legendValuesH lg := by
  cases lg <;> rfl

theorem legendPropsOf_deref (σ : List Obj) (lg : LegendReqH) :
    legendPropsOf (derefLegend σ lg) = derefGroups σ (groupRefsOf lg) := by
  cases lg with
  | undef => rfl
  | bool b => rfl
  | spec s =>
    cases hp : s.properties with
    | none => simp [derefLegend, legendPropsOf, groupRefsOf, hp, derefGroups]
    | some gr => simp [derefLegend, legendPropsOf, groupRefsOf, hp]

theorem formatMixins_norm (σ σm : List Obj) (lg : LegendReqH) (m : UnitModel)
    (rMark : Nat) (c : Channel) :
    formatMixins (derefLegend σ lg) (modelAt m σm rMark) c
      = (if (m.fieldDefF c).bin then [] else m.utilFormatMixinsF c (legendFormatH lg)) := by
  cases lg <;> rfl

theorem labels_modelAt (fd : FieldDef) (sp : Option Obj) (m : UnitModel)
    (σm : List Obj) (rMark : Nat) (c : Channel) :
    properties.labels fd sp (modelAt m σm rMark) c = properties.labels fd sp m c := rfl

theorem modelAt_fieldDefF (m : UnitModel) (σ : List Obj) (rMark : Nat) :
    (modelAt m σ rMark).fieldDefF = m.fieldDefF := rfl

theorem derefGroups_title (σ : List Obj) (gr : GroupRefs) :
    (derefGroups σ gr).title = gr.title.map (hread σ) := rfl

theorem derefGroups_symbols (σ : List Obj) (gr : GroupRefs) :
    (derefGroups σ gr).symbols = gr.symbols.map (hread σ) := rfl

theorem derefGroups_legend (σ : List Obj) (gr : GroupRefs) :
    (derefGroups σ gr).legend = gr.legend.map (hread σ) := rfl

theorem derefGroups_labels (σ : List Obj) (gr : GroupRefs) :
    (derefGroups σ gr).labels = gr.labels.map (hread σ) := rfl

/-- Symbols stage 1: allocate `symbols = {}` and run the shape switch. -/
def srH1 (m : UnitModel) (σ : List Obj) : List Obj :=
  σ ++ [symbolsShapeStep m.markV]

/-- Symbols stage 2: `applyMarkConfig` mutates the symbols object. -/
def srH2 (m : UnitModel) (c : Channel) (σ : List Obj) (rMark : Nat) : List Obj :=
  hwrite (srH1 m σ) σ.length
    (symbolsConfigStep (hread (srH1 m σ) σ.length) (modelAt m (srH1 m σ) rMark) c)

/-- Symbols stage 3: the forced stroke width when filled. -/
def srH3 (m : UnitModel) (c : Channel) (σ : List Obj) (rMark : Nat) : List Obj :=
  hwrite (srH2 m c σ rMark) σ.length
    (symbolsWidthStep (hread (srH2 m c σ rMark) σ.length) (modelAt m (srH2 m c σ rMark) rMark))

/-- Symbols stage 4: the swatch fill-or-stroke value. -/
def srH4 (fd : FieldDef) (m : UnitModel) (c : Channel) (σ : List Obj) (rMark : Nat) : List Obj :=
  hwrite (srH3 m c σ rMark) σ.length
    (symbolsColorStep (hread (srH3 m c σ rMark) σ.length) fd (modelAt m (srH3 m c σ rMark) rMark) c)

/-- Symbols stage 5: `extend(symbols, symbolsSpec || {})` reads the
override object and mutates the symbols object. -/
def srH5 (fd : FieldDef) (rSpec : Option Nat) (m : UnitModel) (c : Channel)
    (σ : List Obj) (rMark : Nat) : List Obj :=
  hwrite (srH4 fd m c σ rMark) σ.length
    (extendO (hread (srH4 fd m c σ rMark) σ.length)
      ((rSpec.map (hread (srH4 fd m c σ rMark))).getD []))

/-- Heap-passing `properties.symbols`: the symbols object is allocated fresh
and mutated in place by each step; the override object is only read. -/
def symbolsRuleH (σ : List Obj) (fd : FieldDef) (rSpec : Option Nat)
    (m : UnitModel) (rMark : Nat) (c : Channel) : List Obj × Option Obj :=
  let s := hread (srH5 fd rSpec m c σ rMark) σ.length
  (srH5 fd rSpec m c σ rMark, if s.isEmpty then none else some s)

theorem symbolsRuleH_frame (σ : List Obj) (fd : FieldDef) (rSpec : Option Nat)
    (m : UnitModel) (rMark : Nat) (c : Channel) :
    (∀ i, i < σ.length → hread (symbolsRuleH σ fd rSpec m rMark c).1 i = hread σ i)
    ∧ σ.length < (symbolsRuleH σ fd rSpec m rMark c).1.length := by
  have h1 : DInv σ (symbolsShapeStep m.markV) (srH1 m σ) := DInv_alloc σ _
  have h2 : DInv σ _ (srH2 m c σ rMark) :=
    DInv_write h1 (fun o => symbolsConfigStep o (modelAt m (srH1 m σ) rMark) c)
  have h3 : DInv σ _ (srH3 m c σ rMark) :=
    DInv_write h2 (fun o => symbolsWidthStep o (modelAt m (srH2 m c σ rMark) rMark))
  have h4 : DInv σ _ (srH4 fd m c σ rMark) :=
    DInv_write h3 (fun o => symbolsColorStep o fd (modelAt m (srH3 m c σ rMark) rMark) c)
  have h5 : DInv σ _ (srH5 fd rSpec m c σ rMark) :=
    DInv_write h4 (fun o => extendO o ((rSpec.map (hread (srH4 fd m c σ rMark))).getD []))
  exact ⟨fun i hi => h5.2.1 i hi, h5.1⟩

theorem symbolsRuleH_value (σ : List Obj) (fd : FieldDef) (rSpec : Option Nat)
    (m : UnitModel) (rMark : Nat) (c : Channel)
    (hrm : rMark < σ.length) (hrs : ∀ r, rSpec = some r → r < σ.length) :
    (symbolsRuleH σ fd rSpec m rMark c).2
      = properties.symbols fd (rSpec.map (hread σ)) (modelAt m σ rMark) c := by
  have h1 : DInv σ (symbolsShapeStep m.markV) (srH1 m σ) := DInv_alloc σ _
  have h2 : DInv σ _ (srH2 m c σ rMark) :=
    DInv_write h1 (fun o => symbolsConfigStep o (modelAt m (srH1 m σ) rMark) c)
  have h3 : DInv σ _ (srH3 m c σ rMark) :=
    DInv_write h2 (fun o => symbolsWidthStep o (modelAt m (srH2 m c σ rMark) rMark))
  have h4 : DInv σ _ (srH4 fd m c σ rMark) :=
    DInv_write h3 (fun o => symbolsColorStep o fd (modelAt m (srH3 m c σ rMark) rMark) c)
  have h5 : DInv σ _ (srH5 fd rSpec m c σ rMark) :=
    DInv_write h4 (fun o => extendO o ((rSpec.map (hread (srH4 fd m c σ rMark))).getD []))
  have em1 := modelAt_congr m rMark (h1.2.1 rMark hrm)
  have em2 := modelAt_congr m rMark (h2.2.1 rMark hrm)
  have em3 := modelAt_congr m rMark (h3.2.1 rMark hrm)
  have eg4 := optmap_hread_eq rSpec (fun r hrr => h4.2.1 r (hrs r hrr))
  have hcell : hread (symbolsRuleH σ fd rSpec m rMark c).1 σ.length
      = extendO (symbolsBase fd (modelAt m σ rMark) c) ((rSpec.map (hread σ)).getD []) := by
    refine h5.2.2.trans ?_
    rw [em1, em2, em3, eg4]
    rfl
  show (if (hread (symbolsRuleH σ fd rSpec m rMark c).1 σ.length).isEmpty = true then none
        else some (hread (symbolsRuleH σ fd rSpec m rMark c).1 σ.length))
      = properties.symbols fd (rSpec.map (hread σ)) (modelAt m σ rMark) c
  rw [hcell]
  rfl

theorem DInv_symbolsRuleH {σ0 σ : List Obj} {cur : Obj} (h : DInv σ0 cur σ)
    (fd : FieldDef) (rSpec : Option Nat) (m : UnitModel) (rMark : Nat) (c : Channel) :
    DInv σ0 cur ((symbolsRuleH σ fd rSpec m rMark c).1) := by
  obtain ⟨hlen, hfr, hcur⟩ := h
  obtain ⟨hf, hl⟩ := symbolsRuleH_frame σ fd rSpec m rMark c
  exact ⟨Nat.lt_trans hlen hl,
    fun i hi => (hf i (Nat.lt_trans hi hlen)).trans (hfr i hi),
    (hf σ0.length hlen).trans hcur⟩

/-- One iteration of the property-group loop, heap side: a defined nonempty
group value is written into the legend definition object. -/
def groupStepH (σ : List Obj) (r : Nat) (g : String) (v : Option Obj) : List Obj :=
  match v with
  | some o => if o.isEmpty then σ else hwrite σ r (setGroup (hread σ r) g o)
  | none => σ

theorem DInv_groupStep {σ0 σ : List Obj} {cur : Obj} (h : DInv σ0 cur σ)
    (g : String) (v : Option Obj) :
    DInv σ0 (addGroup cur g v) (groupStepH σ σ0.length g v) := by
  cases v with
  | none => exact h
  | some o =>
    by_cases he : o.isEmpty = true
    · simpa [groupStepH, addGroup, he] using h
    · simpa [groupStepH, addGroup, he] using DInv_write h (fun d => setGroup d g o)

theorem DInv_optV {σ0 σ : List Obj} {cur : Obj} (h : DInv σ0 cur σ)
    (g : String) (v : Option Value) :
    DInv σ0 (match v with | some w => setV cur g w | none => cur)
      (match v with
       | some w => hwrite σ σ0.length (setV (hread σ σ0.length) g w)
       | none => σ) := by
  cases v with
  | none => exact h
  | some w => exact DInv_write h (fun d => setV d g w)

/-- Legend stage 1: allocate the definition with its scale reference. -/
def plH1 (m : UnitModel) (c : Channel) (σ0 : List Obj) (rMark : Nat) : List Obj :=
  σ0 ++ [getLegendDefWithScale (modelAt m σ0 rMark) c]

/-- Legend stage 2: `def.title = title(legend, fieldDef)`. -/
def plH2 (m : UnitModel) (c : Channel) (σ0 : List Obj) (rMark : Nat) (lg : LegendReqH) :
    List Obj :=
  hwrite (plH1 m c σ0 rMark) σ0.length
    (setV (hread (plH1 m c σ0 rMark) σ0.length) "title"
      (.str (title (derefLegend (plH1 m c σ0 rMark) lg) (m.fieldDefF c))))

/-- Legend stage 3: `extend(def, formatMixins(legend, model, channel))`. -/
def plH3 (m : UnitModel) (c : Channel) (σ0 : List Obj) (rMark : Nat) (lg : LegendReqH) :
    List Obj :=
  hwrite (plH2 m c σ0 rMark lg) σ0.length
    (extendO (hread (plH2 m c σ0 rMark lg) σ0.length)
      (formatMixins (derefLegend (plH2 m c σ0 rMark lg) lg)
        (modelAt m (plH2 m c σ0 rMark lg) rMark) c))

/-- Legend stage 4: the `orient` pass-through. -/
def plH4 (m : UnitModel) (c : Channel) (σ0 : List Obj) (rMark : Nat) (lg : LegendReqH) :
    List Obj :=
  match legendOrient (derefLegend (plH3 m c σ0 rMark lg) lg) with
  | some v =>
    hwrite (plH3 m c σ0 rMark lg) σ0.length
      (setV (hread (plH3 m c σ0 rMark lg) σ0.length) "orient" v)
  | none => plH3 m c σ0 rMark lg

/-- Legend stage 5: the `values` pass-through. -/
def plH5 (m : UnitModel) (c : Channel) (σ0 : List Obj) (rMark : Nat) (lg : LegendReqH) :
    List Obj :=
  match legendValues (derefLegend (plH4 m c σ0 rMark lg) lg) with
  | some v =>
    hwrite (plH4 m c σ0 rMark lg) σ0.length
      (setV (hread (plH4 m c σ0 rMark lg) σ0.length) "values" v)
  | none => plH4 m c σ0 rMark lg

/-- Legend stage 6: the title group (no rule — the override object is read
from the heap and written into the definition). -/
def plH6 (m : UnitModel) (c : Channel) (σ0 : List Obj) (rMark : Nat) (lg : LegendReqH) :
    List Obj :=
  groupStepH (plH5 m c σ0 rMark lg) σ0.length "title"
    ((groupRefsOf lg).title.map (hread (plH5 m c σ0 rMark lg)))

/-- Legend stage 7: run the symbols rule (fresh symbols object). -/
def plH7 (m : UnitModel) (c : Channel) (σ0 : List Obj) (rMark : Nat) (lg : LegendReqH) :
    List Obj :=
  (symbolsRuleH (plH6 m c σ0 rMark lg) (m.fieldDefF c) (groupRefsOf lg).symbols m rMark c).1

/-- Legend stage 8: write the symbols group. -/
def plH8 (m : UnitModel) (c : Channel) (σ0 : List Obj) (rMark : Nat) (lg : LegendReqH) :
    List Obj :=
  groupStepH (plH7 m c σ0 rMark lg) σ0.length "symbols"
    (symbolsRuleH (plH6 m c σ0 rMark lg) (m.fieldDefF c) (groupRefsOf lg).symbols m rMark c).2

/-- Legend stage 9: the legend-frame group (no rule). -/
def plH9 (m : UnitModel) (c : Channel) (σ0 : List Obj) (rMark : Nat) (lg : LegendReqH) :
    List Obj :=
  groupStepH (plH8 m c σ0 rMark lg) σ0.length "legend"
    ((groupRefsOf lg).legend.map (hread (plH8 m c σ0 rMark lg)))

/-- Legend stage 10: the labels rule (which reads but never writes the
override object). -/
def plH10 (m : UnitModel) (c : Channel) (σ0 : List Obj) (rMark : Nat) (lg : LegendReqH) :
    List Obj :=
  groupStepH (plH9 m c σ0 rMark lg) σ0.length "labels"
    (properties.labels (m.fieldDefF c)
      ((groupRefsOf lg).labels.map (hread (plH9 m c σ0 rMark lg)))
      (modelAt m (plH9 m c σ0 rMark lg) rMark) c)

/-- Heap-passing `parseLegend`: final heap and the definition's reference. -/
def parseLegendH (m : UnitModel) (c : Channel) (σ0 : List Obj) (rMark : Nat)
    (lg : LegendReqH) : List Obj × Nat :=
  (plH10 m c σ0 rMark lg, σ0.length)

/-- The legend request's override-group references point into the caller's
heap. -/
def refsOk (σ0 : List Obj) (lg : LegendReqH) : Prop :=
  (∀ r, (groupRefsOf lg).title = some r → r < σ0.length)
  ∧ (∀ r, (groupRefsOf lg).symbols = some r → r < σ0.length)
  ∧ (∀ r, (groupRefsOf lg).legend = some r → r < σ0.length)
  ∧ (∀ r, (groupRefsOf lg).labels = some r → r < σ0.length)

/-- The heap-passing legend compiler preserves every pre-existing heap cell
(the mark configuration and all override objects included) and its result
cell holds exactly the pure `parseLegend` of the dereferenced inputs. -/
theorem parseLegendH_spec (m : UnitModel) (c : Channel) (σ0 : List Obj) (rMark : Nat)
    (lg : LegendReqH) (hr : rMark < σ0.length) (hrefs : refsOk σ0 lg) :
    (∀ i, i < σ0.length → hread (parseLegendH m c σ0 rMark lg).1 i = hread σ0 i)
    ∧ hread (parseLegendH m c σ0 rMark lg).1 (parseLegendH m c σ0 rMark lg).2
        = parseLegendCore (modelAt m σ0 rMark) (derefLegend σ0 lg) c := by
  obtain ⟨hrT, hrS, hrL, hrB⟩ := hrefs
  have h1 : DInv σ0 (getLegendDefWithScale (modelAt m σ0 rMark) c) (plH1 m c σ0 rMark) :=
    DInv_alloc σ0 _
  have h2 : DInv σ0 _ (plH2 m c σ0 rMark lg) :=
    DInv_write h1 (fun o => setV o "title"
      (.str (title (derefLegend (plH1 m c σ0 rMark) lg) (m.fieldDefF c))))
  have h3 : DInv σ0 _ (plH3 m c σ0 rMark lg) :=
    DInv_write h2 (fun o => extendO o
      (formatMixins (derefLegend (plH2 m c σ0 rMark lg) lg)
        (modelAt m (plH2 m c σ0 rMark lg) rMark) c))
  have h4 : DInv σ0 _ (plH4 m c σ0 rMark lg) :=
    DInv_optV h3 "orient" (legendOrient (derefLegend (plH3 m c σ0 rMark lg) lg))
  have h5 : DInv σ0 _ (plH5 m c σ0 rMark lg) :=
    DInv_optV h4 "values" (legendValues (derefLegend (plH4 m c σ0 rMark lg) lg))
  have h6 : DInv σ0 _ (plH6 m c σ0 rMark lg) :=
    DInv_groupStep h5 "title" ((groupRefsOf lg).title.map (hread (plH5 m c σ0 rMark lg)))
  have h7 : DInv σ0 _ (plH7 m c σ0 rMark lg) :=
    DInv_symbolsRuleH h6 (m.fieldDefF c) (groupRefsOf lg).symbols m rMark c
  have h8 : DInv σ0 _ (plH8 m c σ0 rMark lg) :=
    DInv_groupStep h7 "symbols"
      (symbolsRuleH (plH6 m c σ0 rMark lg) (m.fieldDefF c) (groupRefsOf lg).symbols m rMark c).2
  have h9 : DInv σ0 _ (plH9 m c σ0 rMark lg) :=
    DInv_groupStep h8 "legend"
      ((groupRefsOf lg).legend.map (hread (plH8 m c σ0 rMark lg)))
  have h10 : DInv σ0 _ (plH10 m c σ0 rMark lg) :=
    DInv_groupStep h9 "labels"
      (properties.labels (m.fieldDefF c)
        ((groupRefsOf lg).labels.map (hread (plH9 m c σ0 rMark lg)))
        (modelAt m (plH9 m c σ0 rMark lg) rMark) c)
  refine ⟨fun i hi => h10.2.1 i hi, ?_⟩
  refine h10.2.2.trans ?_
  have h6rm : rMark < (plH6 m c σ0 rMark lg).length := Nat.lt_trans hr h6.1
  have h6rs : ∀ r, (groupRefsOf lg).symbols = some r → r < (plH6 m c σ0 rMark lg).length :=
    fun r hrr => Nat.lt_trans (hrS r hrr) h6.1
  rw [symbolsRuleH_value (plH6 m c σ0 rMark lg) (m.fieldDefF c) (groupRefsOf lg).symbols
    m rMark c h6rm h6rs]
  have egT := optmap_hread_eq (groupRefsOf lg).title (fun r hrr => h5.2.1 r (hrT r hrr))
  have egS := optmap_hread_eq (groupRefsOf lg).symbols (fun r hrr => h6.2.1 r (hrS r hrr))
  have egL := optmap_hread_eq (groupRefsOf lg).legend (fun r hrr => h8.2.1 r (hrL r hrr))
  have egB := optmap_hread_eq (groupRefsOf lg).labels (fun r hrr => h9.2.1 r (hrB r hrr))
  rw [egT, egS, egL, egB]
  have em6 := modelAt_congr m rMark (h6.2.1 rMark hr)
  have em9 := modelAt_congr m rMark (h9.2.1 rMark hr)
  rw [em6, em9]
  simp only [title_deref, formatMixins_norm, legendOrient_deref, legendValues_deref,
    parseLegendCore, legendBaseDef, addGroups, legendPropsOf_deref, derefGroups_title,
    derefGroups_symbols, derefGroups_legend, derefGroups_labels, labels_modelAt,
    modelAt_fieldDefF]

/-- C9: neither mark-default resolution nor legend compilation mutates any of
its inputs.  In the heap-passing embeddings — where every JS object mutation
is an explicit heap write — every heap cell that existed before the call
(the base configuration's mark object at `rMark` and all override-group
objects among them) reads back unchanged afterwards, and the freshly
allocated return object holds exactly the value of the corresponding pure
embedding, so each call writes only to its own return value.  (The encoding
and the model's accessors are consumed purely by construction.) -/
theorem no_input_mutation (mark : Mark) (enc : Encoding) (m : UnitModel) (c : Channel)
    (σ0 : List Obj) (rMark : Nat) (lg : LegendReqH)
    (hr : rMark < σ0.length) (hrefs : refsOk σ0 lg) :
    ((∀ i, i < σ0.length →
        hread (initMarkConfigH mark enc σ0 rMark).1 i = hread σ0 i)
      ∧ hread (initMarkConfigH mark enc σ0 rMark).1 (initMarkConfigH mark enc σ0 rMark).2
          = initMarkConfig mark enc ⟨hread σ0 rMark⟩)
    ∧ ((∀ i, i < σ0.length →
        hread (parseLegendH m c σ0 rMark lg).1 i = hread σ0 i)
      ∧ hread (parseLegendH m c σ0 rMark lg).1 (parseLegendH m c σ0 rMark lg).2
          = parseLegendCore (modelAt m σ0 rMark) (derefLegend σ0 lg) c) :=
  ⟨initMarkConfigH_spec mark enc σ0 rMark hr, parseLegendH_spec m c σ0 rMark lg hr hrefs⟩

/-- Witness for C9: on a two-cell heap (the mark configuration and a symbols
override), both compilations leave both input cells exactly as they were. -/
theorem no_input_mutation_witness :
    hread (initMarkConfigH Mark.bar (fun _ => none)
        [[("filled", Value.bool true)], [("extra", Value.num 1)]] 0).1 0
      = [("filled", Value.bool true)]
    ∧ hread (parseLegendH mSample Channel.color
        [[("filled", Value.bool true)], [("extra", Value.num 1)]] 0
        (.spec { properties := some { symbols := some 1 } })).1 1
      = [("extra", Value.num 1)] := by
  have hrefs : refsOk [[("filled", Value.bool true)], [("extra", Value.num 1)]]
      (.spec { properties := some { symbols := some 1 } }) := by
    refine ⟨?_, ?_, ?_, ?_⟩ <;> intro r hrr <;> simp [groupRefsOf] at hrr <;> subst hrr <;>
      decide
  have h := no_input_mutation Mark.bar (fun _ => none) mSample Channel.color
    [[("filled", Value.bool true)], [("extra", Value.num 1)]] 0
    (.spec { properties := some { symbols := some 1 } }) (by decide) hrefs
  exact ⟨(h.1.1 0 (by decide)).trans rfl, (h.2.1 1 (by decide)).trans rfl⟩

end VegaLite
